import Mathlib

/-!
Verification development for the quote pricing and finalization engine of the
quotation-dashboard repository (`apps/api/services/quoting.py`,
`apps/api/services/quote_numbers.py`, `apps/api/services/quotes_finalize.py`).

Modelling conventions:
* Python `Decimal` values are modelled as exact rationals (`ℚ`).  The repository
  only ever quantizes to two fractional digits via `Decimal.quantize(Decimal("0.01"))`,
  whose default context rounding is `ROUND_HALF_EVEN`; this is `quantize2` below.
  Python's `str`/`Decimal` round trip is exact, so snapshot fields recorded as
  decimal strings in the code are modelled by the exact rational values they denote.
* Python `int` is `ℤ` (arbitrary precision in both).
* Mutable database state is a `Db` record; SQLAlchemy queries are modelled as
  list operations over it, and `db.add`/`db.commit` as an insert that fails on a
  duplicate `quote_number` (the column carries a unique constraint).
* `datetime.utcnow()` is a `(year, month)` parameter threaded into the functions
  that read the clock.
-/

namespace QuotationDashboard

/-! ## Decimal core: `Decimal.quantize(Decimal("0.01"))` with ROUND_HALF_EVEN -/

/-- Round a rational to the nearest integer, ties to the even integer.
This is the rounding performed by Python `Decimal.quantize` under the default
context rounding `ROUND_HALF_EVEN`, expressed on the exact rational value. -/
def rnd2e (x : ℚ) : ℤ :=
  if x - ⌊x⌋ < 1 / 2 then ⌊x⌋
  else if (1 : ℚ) / 2 < x - ⌊x⌋ then ⌊x⌋ + 1
  else if ⌊x⌋ % 2 = 0 then ⌊x⌋ else ⌊x⌋ + 1

/-- `value.quantize(DEC2)` where `DEC2 = Decimal("0.01")`: round to a multiple
of 1/100, half-even. -/
def quantize2 (x : ℚ) : ℚ := ((rnd2e (100 * x) : ℚ)) / 100

/-! ## `services/quoting.py` -/

/-- One band of `MarkupSchema.rules[category]["bands"]`, a JSON object.
`none` in `min_qty` models an absent key (the code defaults it to `0`);
`none` in `max_qty` models an absent *or null* key (the code defaults absent to
`10**9` and maps null to `10**9` through `max_q or 10**9`); `none` in
`markup_percent` models an absent key (the code defaults it to `"0"`). -/
structure Band where
  min_qty : Option ℤ
  max_qty : Option ℤ
  markup_percent : Option ℚ
deriving DecidableEq, Repr

/-- `band.get("min_qty", 0)`. -/
def Band.minQ (b : Band) : ℤ := b.min_qty.getD 0

/-- `(band.get("max_qty", 10**9) or 10**9)`: an absent/null upper bound becomes
the sentinel `10**9`; so does a stored `0` (Python falsiness of `0`). -/
def Band.maxQ (b : Band) : ℤ :=
  match b.max_qty with
  | none => 10 ^ 9
  | some v => if v = 0 then 10 ^ 9 else v

/-- `Decimal(str(band.get("markup_percent", "0")))`. -/
def Band.pct (b : Band) : ℚ := b.markup_percent.getD 0

/-- `MarkupSchema.rules`: a JSON object keyed by category, each value holding a
`"bands"` list.  A category whose value is a falsy dict (`{}`/`null`) and a
category whose `"bands"` key is absent both make the code return `Decimal("0")`;
both are modelled by an empty band list. -/
def Rules := List (String × List Band)

instance : DecidableEq Rules := by unfold Rules; infer_instance

/-- `rules.get(category)` (dict keys are unique; first association wins). -/
def Rules.get (rules : Rules) (category : String) : Option (List Band) :=
  List.lookup category rules

/-- The band scan inside `find_markup_percent_from_rules`:
first band with `min_q <= qty <= (max_q or 10**9)` wins. -/
def scanBands (qty : ℤ) : List Band → ℚ
  | [] => 0
  | b :: rest =>
      if b.minQ ≤ qty ∧ qty ≤ b.maxQ then b.pct else scanBands qty rest

/-- `find_markup_percent_from_rules(rules, category, qty)` from
`services/quoting.py`. -/
def find_markup_percent_from_rules (rules : Rules) (category : String) (qty : ℤ) : ℚ :=
  match rules.get category with
  | none => 0
  | some bands => scanBands qty bands

/-- `compute_customer_price(base_cost, markup_pct)` from `services/quoting.py`:
`total = base_cost * (1 + markup_pct/100)`, then `.quantize(DEC2)`. -/
def compute_customer_price (base_cost markup_pct : ℚ) : ℚ :=
  quantize2 (base_cost * (1 + markup_pct / 100))

/-- A row of the `markup_schemas` table. -/
structure MarkupSchema where
  id : ℤ
  name : String
  is_active : Bool
  rules : Rules
deriving DecidableEq

/-! Spec-side definitions used only to compare the code against the spec's words
(refinement checks); they are not translations of the source. -/

/-- Modelled from the spec's words for the Price Calculator: round to the
nearest cent with ties rounded *half-up* (away from zero), as claimed by
"rounded to 2 fractional digits using round-half-up ... semantics". -/
def rnd2upSpec (x : ℚ) : ℤ :=
  if x - ⌊x⌋ < 1 / 2 then ⌊x⌋
  else if (1 : ℚ) / 2 < x - ⌊x⌋ then ⌊x⌋ + 1
  else if x < 0 then ⌊x⌋ else ⌊x⌋ + 1

/-- Spec-worded price: `base_cost * (1 + markup_pct/100)` rounded half-up. -/
def compute_customer_price_halfUpSpec (base_cost markup_pct : ℚ) : ℚ :=
  ((rnd2upSpec (100 * (base_cost * (1 + markup_pct / 100))) : ℚ)) / 100

/-- Modelled from the spec's words for the Resolver: an absent/null `max_qty`
means *no upper limit* (`+infinity`), per "an absent/null max_qty means no
upper limit (+infinity)". -/
def bandMatchesSpecInf (qty : ℤ) (b : Band) : Bool :=
  decide (b.minQ ≤ qty) && (match b.max_qty with
    | none => true
    | some v => decide (qty ≤ v))

/-- Spec-worded resolver: first band matching with unbounded-above semantics. -/
def find_markup_percent_specInf (rules : Rules) (category : String) (qty : ℤ) : ℚ :=
  match rules.get category with
  | none => 0
  | some bands =>
      match bands.find? (bandMatchesSpecInf qty) with
      | some b => b.pct
      | none => 0

/-! ## String utilities for `services/quote_numbers.py`

`next_quote_number` manipulates the quote-number strings through Python
`str.split`, `int(...)`, `f"{...:04d}"` formatting and a SQL `MAX` over a
varchar column (byte-wise lexicographic for the ASCII strings at hand).  The
helpers below model those primitives directly on `List Char` so that they are
structurally recursive and fully evaluable. -/

/-- The decimal digit character of `d % 10`. -/
def dChar (d : ℕ) : Char :=
  if d % 10 = 0 then '0'
  else if d % 10 = 1 then '1'
  else if d % 10 = 2 then '2'
  else if d % 10 = 3 then '3'
  else if d % 10 = 4 then '4'
  else if d % 10 = 5 then '5'
  else if d % 10 = 6 then '6'
  else if d % 10 = 7 then '7'
  else if d % 10 = 8 then '8'
  else '9'

/-- Most-significant-first decimal digits of `n`, driven by fuel (any fuel
`> log10 n` gives the digits). -/
def natDigitsAux : ℕ → ℕ → List Char
  | 0, _ => []
  | fuel + 1, n => if n < 10 then [dChar n] else natDigitsAux fuel (n / 10) ++ [dChar n]

/-- Decimal representation of a natural number (Python `str(n)` for `n >= 0`). -/
def natStr (n : ℕ) : String := ⟨natDigitsAux (n + 1) n⟩

/-- Left-pad with `'0'` up to width `w` (the padding of Python `f"{n:0wd}"`). -/
def padZeros (w : ℕ) (s : String) : String :=
  if w ≤ s.length then s else ⟨List.replicate (w - s.length) '0'⟩ ++ s

/-- Python `f"{k:04d}"` for an arbitrary int (a negative value keeps its sign
inside the width). -/
def pyFmt04 (k : ℤ) : String :=
  if 0 ≤ k then padZeros 4 (natStr k.toNat) else "-" ++ padZeros 3 (natStr (-k).toNat)

/-- `f"{k:04d}"` restricted to naturals: the shape of well-formed sequence
suffixes. -/
def fmt4 (k : ℕ) : String := padZeros 4 (natStr k)

/-- `f"QUOTE-{now:%Y%m}-"`: the current month's quote-number tag
(`%Y` prints the year's digits — `utcnow` years have four — and `%m` is the
two-digit zero-padded month). -/
def monthTag (y m : ℕ) : String :=
  "QUOTE-" ++ natStr y ++ padZeros 2 (natStr m) ++ "-"

/-- `col.like(tag + "%")`: the stored value starts with the tag (the tag
contains no LIKE wildcards). -/
def strStarts (s tag : String) : Bool := List.isPrefixOf tag.data s.data

/-- Byte-wise lexicographic strict order on char lists (SQL varchar comparison
for ASCII data). -/
def ltGo : List Char → List Char → Bool
  | [], [] => false
  | [], _ :: _ => true
  | _ :: _, [] => false
  | a :: as, b :: bs =>
      if a.toNat < b.toNat then true
      else if b.toNat < a.toNat then false
      else ltGo as bs

/-- Lexicographic strict order on strings. -/
def strLtB (a b : String) : Bool := ltGo a.data b.data

/-- One step of the SQL `MAX` fold: keep the lexicographically greater string. -/
def maxStep (acc : Option String) (s : String) : Option String :=
  match acc with
  | none => some s
  | some a => if strLtB a s then some s else some a

/-- `func.max(col)` over the matching rows: `none` on an empty set (SQL NULL),
otherwise the lexicographically greatest string. -/
def lexMax (l : List String) : Option String := l.foldl maxStep none

/-- Python `s.split("-")` on the character list. -/
def splitDash : List Char → List (List Char)
  | [] => [[]]
  | c :: rest =>
      if c = '-' then [] :: splitDash rest
      else
        match splitDash rest with
        | [] => [[c]]
        | p :: ps => (c :: p) :: ps

/-- `s.split("-")[-1]`. -/
def lastDashComp (s : String) : String := ⟨(splitDash s.data).getLastD []⟩

/-- ASCII whitespace (the characters Python `int(...)` strips). -/
def isSpaceC (c : Char) : Bool := c.toNat = 32 || (9 ≤ c.toNat && c.toNat ≤ 13)

/-- ASCII decimal digit. -/
def isDigitC (c : Char) : Bool := 48 ≤ c.toNat && c.toNat ≤ 57

/-- Value of a digit character. -/
def dval (c : Char) : ℕ := c.toNat - 48

/-- Strip leading and trailing whitespace. -/
def trimC (cs : List Char) : List Char :=
  ((cs.dropWhile isSpaceC).reverse.dropWhile isSpaceC).reverse

/-- Continue parsing digits after the first one; a single underscore is allowed
between two digits (Python 3 int literals). -/
def digitsGo : ℕ → List Char → Option ℕ
  | acc, [] => some acc
  | acc, c :: rest =>
      if c = '_' then
        match rest with
        | [] => none
        | d :: rest2 => if isDigitC d then digitsGo (acc * 10 + dval d) rest2 else none
      else if isDigitC c then digitsGo (acc * 10 + dval c) rest else none

/-- Parse a non-empty unsigned digit string. -/
def digitsParse (cs : List Char) : Option ℕ :=
  match cs with
  | [] => none
  | c :: rest => if isDigitC c then digitsGo (dval c) rest else none

/-- Sign handling of Python `int(...)` after whitespace stripping. -/
def pyIntAux : List Char → Option ℤ
  | [] => none
  | c :: rest =>
      if c = '+' then (digitsParse rest).map (fun n => (n : ℤ))
      else if c = '-' then (digitsParse rest).map (fun n => -(n : ℤ))
      else (digitsParse (c :: rest)).map (fun n => (n : ℤ))

/-- Python `int(s)`: strip whitespace, optional sign, decimal digits (with
single underscores between digits); `none` models a raised `ValueError`.
(Non-ASCII decimal digits accepted by CPython are outside this model.) -/
def pyInt (s : String) : Option ℤ := pyIntAux (trimC s.data)

/-- `next_quote_number(db, model_cls=..., column_name="quote_number")` from
`services/quote_numbers.py`.  `stored` is the column's contents; `(y, m)` is
`datetime.utcnow()`'s year and month. -/
def next_quote_number (stored : List String) (y m : ℕ) : String :=
  let tag := monthTag y m
  let matching := stored.filter (fun s => strStarts s tag)
  let last := lexMax matching
  let n : ℤ :=
    match last with
    | none => 0
    | some l => if l = "" then 0 else (pyInt (lastDashComp l)).getD 0
  tag ++ pyFmt04 (n + 1)

/-! ## `services/quotes_finalize.py` -/

/-- `LineItem` DTO: `qty` is validated `>= 1` at the HTTP boundary
(`Annotated[int, Field(strict=True, ge=1)]`); the core receives an int. -/
structure LineItem where
  description : String
  qty : ℤ
  unit_cost : ℚ
deriving DecidableEq

/-- `CustomerQuoteFinalizeRequest` DTO (pydantic defaults reproduced). -/
structure CustomerQuoteFinalizeRequest where
  project_id : ℤ
  selected_supplier_quote_id : Option ℤ := none
  line_items : Option (List LineItem) := none
  base_cost : Option ℚ := none
  qty : Option ℤ := none
  category : Option String := none
  markup_schema_id : Option ℤ := none
  markup_override_pct : Option ℚ := none
  fees : ℚ := 0
  tax : ℚ := 0
  valid_until : Option ℤ := none
  status : String := "draft"
deriving DecidableEq

/-- One serialized item of the stored `line_items` JSON
(`unit_cost` is recorded as an exact decimal string; modelled by its value). -/
structure StoredItem where
  description : String
  qty : ℤ
  unit_cost : ℚ
deriving DecidableEq

/-- The normalized `line_items` JSON: a mode tag and the serialized items. -/
structure LineItemsJson where
  mode : String
  items : List StoredItem
deriving DecidableEq

/-- The `snapshot["calc"]` record: every intermediate value, recorded in the
code as exact decimal strings (modelled by the values they denote). -/
structure CalcSnapshot where
  computed_qty : ℤ
  markup_pct : ℚ
  subtotal : ℚ
  before_extras : ℚ
  fees : ℚ
  tax : ℚ
  total : ℚ
deriving DecidableEq

/-- The audit snapshot: verbatim input echo, the `"calc"` record (`calc` is a
reserved word, hence the field name `calcRec`), assigned number. -/
structure Snapshot where
  input : CustomerQuoteFinalizeRequest
  calcRec : CalcSnapshot
  quote_number : String
deriving DecidableEq

/-- A row of the `customer_quotes` table. -/
structure CustomerQuote where
  quote_number : String
  project_id : ℤ
  selected_supplier_quote_id : Option ℤ
  markup_schema_id : ℤ
  line_items : LineItemsJson
  subtotal : ℚ
  fees : ℚ
  tax : ℚ
  total : ℚ
  valid_until : Option ℤ
  status : String
  snapshot : Snapshot
deriving DecidableEq

/-- The storage state read and written by the finalize pipeline. -/
structure Db where
  schemas : List MarkupSchema
  quotes : List CustomerQuote
deriving DecidableEq

/-- `get_active_markup_schema(db)`: filter `is_active`, `ORDER BY id ASC`,
first row — the active schema of least id (ids are unique primary keys;
on equal ids the earlier row is kept). -/
def get_active_markup_schema (db : Db) : Option MarkupSchema :=
  (db.schemas.filter (·.is_active)).foldl
    (fun acc s =>
      match acc with
      | none => some s
      | some a => if s.id < a.id then some s else some a) none

/-- `determine_markup_pct(db, category=..., qty=...)` from `services/quoting.py`:
`if not schema or not schema.rules: return Decimal("0")`. -/
def determine_markup_pct (db : Db) (category : String) (qty : ℤ) : ℚ :=
  match get_active_markup_schema db with
  | none => 0
  | some schema =>
      if schema.rules = [] then 0
      else find_markup_percent_from_rules schema.rules category qty

/-- `_get_active_schema_id(db)` (the same `ORDER BY id ASC` query). -/
def activeSchemaId (db : Db) : Option ℤ := (get_active_markup_schema db).map (·.id)

/-- `_subtotal_from_items(items)`: accumulate `unit_cost * qty`, quantize the
sum (not the individual products). -/
def subtotal_from_items (items : List LineItem) : ℚ :=
  quantize2 (items.foldl (fun s li => s + li.unit_cost * (li.qty : ℚ)) 0)

/-- Python `a or b` on optional ints: `None` and `0` are falsy. -/
def pyOrInt (a b : Option ℤ) : Option ℤ :=
  match a with
  | some v => if v = 0 then b else some v
  | none => b

/-- Python `a or d` on an optional string: `None` and `""` are falsy. -/
def pyOrStr (a : Option String) (d : String) : String :=
  match a with
  | some s => if s = "" then d else s
  | none => d

/-- `qty = computed_qty or payload.qty or 1` in `_resolve_markup_pct`. -/
def pyOrQty (computed pq : Option ℤ) : ℤ :=
  match pyOrInt (pyOrInt computed pq) (some 1) with
  | some v => v
  | none => 1

/-- `_resolve_markup_pct(db, payload, computed_qty)`: a supplied override is
used verbatim (`Decimal(str(...))` is exact); otherwise the active-schema
resolver runs on `payload.category or "im"` and the effective quantity. -/
def resolve_markup_pct (db : Db) (payload : CustomerQuoteFinalizeRequest)
    (computed_qty : Option ℤ) : ℚ :=
  match payload.markup_override_pct with
  | some o => o
  | none =>
      determine_markup_pct db (pyOrStr payload.category "im") (pyOrQty computed_qty payload.qty)

/-- The failures `finalize_quote` can signal. -/
inductive FinalizeError where
  /-- `ValueError("No active markup schema found and none provided.")`. -/
  | noActiveSchema
  /-- `ValueError("Provide either line_items or (base_cost and qty).")`. -/
  | missingCostInput
  /-- `decimal.DivisionByZero` from `subtotal / Decimal(computed_qty)`
  (reachable only for `qty = 0`, which the DTO's `ge=1` forbids upstream). -/
  | divisionByZero
  /-- `IntegrityError`: the unique constraint on `quote_number` rejected the
  insert at `db.commit()`. -/
  | uniqueViolation
deriving DecidableEq

instance : DecidableEq (Except FinalizeError CustomerQuote) := fun a b =>
  match a, b with
  | .error e1, .error e2 =>
      if h : e1 = e2 then isTrue (by rw [h]) else isFalse (by simp [h])
  | .ok v1, .ok v2 =>
      if h : v1 = v2 then isTrue (by rw [h]) else isFalse (by simp [h])
  | .error _, .ok _ => isFalse (by simp)
  | .ok _, .error _ => isFalse (by simp)

/-- Result of one `finalize_quote` call: the returned row or raised error, the
storage state afterwards, and how many insert attempts were made (the code
performs `db.add`/`db.commit` exactly once — there is no retry loop). -/
structure FinalizeOutcome where
  result : Except FinalizeError CustomerQuote
  db : Db
  insertAttempts : ℕ
deriving DecidableEq

/-- Step 1 of `finalize_quote`:
`schema_id = payload.markup_schema_id or _get_active_schema_id(db)` followed by
`if not schema_id: raise` — `none` means the `NoActiveSchema` error fires. -/
def schemaStep (db : Db) (payload : CustomerQuoteFinalizeRequest) : Option ℤ :=
  match pyOrInt payload.markup_schema_id (activeSchemaId db) with
  | none => none
  | some i => if i = 0 then none else some i

/-- Step 2 of `finalize_quote`: mode selection, subtotal, computed quantity and
normalized line-items JSON.  `if payload.line_items:` is a truthiness test, so
`None` and `[]` both take the simple branch. -/
def modeStep (payload : CustomerQuoteFinalizeRequest) :
    Except FinalizeError (ℚ × ℤ × LineItemsJson) :=
  let simpleBranch : Except FinalizeError (ℚ × ℤ × LineItemsJson) :=
    match payload.base_cost, payload.qty with
    | some bc, some q =>
        if q = 0 then .error .divisionByZero
        else
          let subtotal := quantize2 bc
          let per_unit := quantize2 (subtotal / (q : ℚ))
          .ok (subtotal, q,
            ⟨"simple", [⟨"Base cost (" ++ pyOrStr payload.category "n/a" ++ ")", q, per_unit⟩]⟩)
    | _, _ => .error .missingCostInput
  match payload.line_items with
  | some items =>
      if items = [] then simpleBranch
      else
        .ok (subtotal_from_items items,
             items.foldl (fun s li => s + li.qty) 0,
             ⟨"items", items.map (fun li => ⟨li.description, li.qty, li.unit_cost⟩)⟩)
  | none => simpleBranch

/-- `finalize_quote(db, payload)` from `services/quotes_finalize.py`, with the
clock `(y, m)` made explicit.  Raising before the persist step leaves storage
untouched; the single `db.add`/`db.commit` either appends the row or fails on
the `quote_number` unique constraint (a failed commit rolls back). -/
def finalize_quote (db : Db) (y m : ℕ) (payload : CustomerQuoteFinalizeRequest) :
    FinalizeOutcome :=
  match schemaStep db payload with
  | none => ⟨.error .noActiveSchema, db, 0⟩
  | some schemaId =>
      match modeStep payload with
      | .error e => ⟨.error e, db, 0⟩
      | .ok (subtotal, computed_qty, line_items_json) =>
          let markup_pct := resolve_markup_pct db payload (some computed_qty)
          let before_extras := compute_customer_price subtotal markup_pct
          -- `Decimal(str(payload.fees or 0)).quantize(DEC2)`: `fees` is a
          -- non-optional Decimal defaulting to 0, and `Decimal("0") or 0`
          -- re-produces the value 0, so the `or` is value-preserving.
          let fees := quantize2 payload.fees
          let tax := quantize2 payload.tax
          let grand_total := quantize2 (before_extras + fees + tax)
          let qn := next_quote_number (db.quotes.map (·.quote_number)) y m
          let snapshot : Snapshot :=
            ⟨payload, ⟨computed_qty, markup_pct, subtotal, before_extras, fees, tax, grand_total⟩,
             qn⟩
          let row : CustomerQuote :=
            ⟨qn, payload.project_id, payload.selected_supplier_quote_id, schemaId,
             line_items_json, subtotal, fees, tax, grand_total, payload.valid_until,
             payload.status, snapshot⟩
          if qn ∈ db.quotes.map (·.quote_number) then ⟨.error .uniqueViolation, db, 1⟩
          else ⟨.ok row, { db with quotes := db.quotes ++ [row] }, 1⟩

/-- Example storage: one active schema whose `"im"` band `200..999` carries 22%. -/
def exDb : Db := ⟨[⟨1, "default", true, [("im", [⟨some 200, some 999, some 22⟩])]⟩], []⟩

/-- Example simple-mode request: `base_cost=1234.56, qty=250, category="im",
fees=25.00, tax=0.00`. -/
def exPayload : CustomerQuoteFinalizeRequest :=
  { project_id := 1, base_cost := some (123456 / 100), qty := some 250,
    category := some "im", fees := 25, tax := 0 }

/-- Example itemized request: `[{qty:2, unit_cost:10.00}, {qty:3, unit_cost:5.00}]`. -/
def exPayloadItems : CustomerQuoteFinalizeRequest :=
  { project_id := 1,
    line_items := some [⟨"two units", 2, 10⟩, ⟨"three units", 3, 5⟩] }

/-- A stored `customer_quotes` row carrying a given quote number (the other
fields are irrelevant to number generation). -/
def dummyRow (qn : String) : CustomerQuote :=
  ⟨qn, 1, none, 1, ⟨"simple", []⟩, 0, 0, 0, 0, none, "draft",
   ⟨{ project_id := 1 }, ⟨0, 0, 0, 0, 0, 0, 0⟩, qn⟩⟩

/-- Storage whose stored numbers make the generator re-issue an existing number:
`QUOTE-202610-9999` is the lexicographic maximum, so the fresh number collides
with the stored `QUOTE-202610-10000`. -/
def exDb8 : Db :=
  ⟨[⟨1, "default", true, [("im", [⟨some 1, none, some 22⟩])]⟩],
   [dummyRow "QUOTE-202610-9999", dummyRow "QUOTE-202610-10000"]⟩

/-- A valid simple-mode request for the collision scenario. -/
def exPayload8 : CustomerQuoteFinalizeRequest :=
  { project_id := 1, base_cost := some 10, qty := some 1 }

/-- Two active schemas with different `"im"` percents: id 1 gives 10, id 2
gives 50. -/
def exDb10 : Db :=
  ⟨[⟨1, "low", true, [("im", [⟨some 1, none, some 10⟩])]⟩,
    ⟨2, "high", true, [("im", [⟨some 1, none, some 50⟩])]⟩], []⟩

/-- A simple-mode request against `exDb10`. -/
def exPayload10 : CustomerQuoteFinalizeRequest :=
  { project_id := 1, base_cost := some 100, qty := some 1, category := some "im" }

/-! ## Helper lemmas -/

/-- Half-even rounding lands within half a unit of the argument, and on an even
integer when exactly half a unit away. -/
lemma rnd2e_char (x : ℚ) :
    |x - (rnd2e x : ℚ)| < 1 / 2 ∨ (|x - (rnd2e x : ℚ)| = 1 / 2 ∧ rnd2e x % 2 = 0) := by
  have hfl : ((⌊x⌋ : ℚ)) ≤ x := Int.floor_le x
  have hfu : x < (⌊x⌋ : ℚ) + 1 := Int.lt_floor_add_one x
  unfold rnd2e
  split_ifs with h1 h2 h3
  · left
    rw [abs_of_nonneg (by linarith)]
    linarith
  · left
    push_cast
    rw [abs_of_nonpos (by linarith)]
    linarith
  · have htie : x - (⌊x⌋ : ℚ) = 1 / 2 := le_antisymm (not_lt.mp h2) (not_lt.mp h1)
    right
    refine ⟨?_, h3⟩
    rw [abs_of_nonneg (by linarith)]
    linarith
  · have htie : x - (⌊x⌋ : ℚ) = 1 / 2 := le_antisymm (not_lt.mp h2) (not_lt.mp h1)
    right
    constructor
    · push_cast
      rw [abs_of_nonpos (by linarith)]
      linarith
    · omega

/-- Rounding an integer (cast to `ℚ`) is the identity. -/
lemma rnd2e_intCast (m : ℤ) : rnd2e (m : ℚ) = m := by
  unfold rnd2e
  rw [Int.floor_intCast]
  norm_num

/-- `quantize2` is the identity on exact multiples of 1/100. -/
lemma quantize2_div100 (m : ℤ) : quantize2 ((m : ℚ) / 100) = (m : ℚ) / 100 := by
  have h : (100 : ℚ) * ((m : ℚ) / 100) = (m : ℚ) := by ring
  rw [quantize2, h, rnd2e_intCast]

/-- Every `quantize2` value is an exact multiple of 1/100. -/
lemma quantize2_eq (x : ℚ) : quantize2 x = ((rnd2e (100 * x) : ℚ)) / 100 := rfl

/-- Scanning a band list in which no band matches yields `Decimal("0")`. -/
lemma scanBands_eq_zero (qty : ℤ) (bands : List Band)
    (h : ∀ b ∈ bands, ¬(b.minQ ≤ qty ∧ qty ≤ b.maxQ)) : scanBands qty bands = 0 := by
  induction bands with
  | nil => rfl
  | cons b rest ih =>
      rw [scanBands, if_neg (h b (by simp))]
      exact ih fun b' hb' => h b' (by simp [hb'])

/-- The scan returns the percent of the first matching band. -/
lemma scanBands_first (qty : ℤ) (pre : List Band) (b : Band) (post : List Band)
    (hpre : ∀ b' ∈ pre, ¬(b'.minQ ≤ qty ∧ qty ≤ b'.maxQ))
    (hb : b.minQ ≤ qty ∧ qty ≤ b.maxQ) :
    scanBands qty (pre ++ b :: post) = b.pct := by
  induction pre with
  | nil => rw [List.nil_append, scanBands, if_pos hb]
  | cons p rest ih =>
      rw [List.cons_append, scanBands, if_neg (hpre p (by simp))]
      exact ih fun b' hb' => hpre b' (by simp [hb'])

lemma dChar_toNat (d : ℕ) : (dChar d).toNat = 48 + d % 10 := by
  have h : d % 10 < 10 := Nat.mod_lt _ (by norm_num)
  unfold dChar
  set e := d % 10 with he
  interval_cases e <;> rfl

lemma natDigitsAux_one (f n : ℕ) (hf : 0 < f) (hn : n < 10) :
    natDigitsAux f n = [dChar n] := by
  cases f with
  | zero => omega
  | succ f2 => rw [natDigitsAux, if_pos hn]

lemma natDigitsAux_two (f n : ℕ) (hf : n < f) (h1 : 10 ≤ n) (h2 : n < 100) :
    natDigitsAux f n = [dChar (n / 10), dChar n] := by
  cases f with
  | zero => omega
  | succ f2 =>
      rw [natDigitsAux, if_neg (by omega)]
      rw [natDigitsAux_one f2 (n / 10) (by omega) (by omega)]
      rfl

lemma natDigitsAux_three (f n : ℕ) (hf : n < f) (h1 : 100 ≤ n) (h2 : n < 1000) :
    natDigitsAux f n = [dChar (n / 100), dChar (n / 10), dChar n] := by
  cases f with
  | zero => omega
  | succ f2 =>
      rw [natDigitsAux, if_neg (by omega)]
      rw [natDigitsAux_two f2 (n / 10) (by omega) (by omega) (by omega)]
      rw [Nat.div_div_eq_div_mul]
      rfl

lemma natDigitsAux_four (f n : ℕ) (hf : n < f) (h1 : 1000 ≤ n) (h2 : n < 10000) :
    natDigitsAux f n = [dChar (n / 1000), dChar (n / 100), dChar (n / 10), dChar n] := by
  cases f with
  | zero => omega
  | succ f2 =>
      rw [natDigitsAux, if_neg (by omega)]
      rw [natDigitsAux_three f2 (n / 10) (by omega) (by omega) (by omega)]
      rw [Nat.div_div_eq_div_mul, Nat.div_div_eq_div_mul]
      rfl

lemma fmt4_data (k : ℕ) (hk : k ≤ 9999) :
    (fmt4 k).data = [dChar (k / 1000), dChar (k / 100), dChar (k / 10), dChar k] := by
  rcases Nat.lt_or_ge k 10 with h | h
  · have h1 : natStr k = ⟨[dChar k]⟩ := by
      rw [natStr, natDigitsAux_one (k + 1) k (by omega) h]
    rw [fmt4, padZeros, h1]
    have : ¬ (4 ≤ (String.mk [dChar k]).length) := by simp [String.length]
    rw [if_neg this]
    have h0 : k / 1000 = 0 := by omega
    have h0b : k / 100 = 0 := by omega
    have h0c : k / 10 = 0 := by omega
    simp [String.length, h0, h0b, h0c]
    rfl
  rcases Nat.lt_or_ge k 100 with h2 | h2
  · have h1 : natStr k = ⟨[dChar (k / 10), dChar k]⟩ := by
      rw [natStr, natDigitsAux_two (k + 1) k (by omega) h h2]
    rw [fmt4, padZeros, h1]
    have hlen : ¬ (4 ≤ (String.mk [dChar (k / 10), dChar k]).length) := by
      simp [String.length]
    rw [if_neg hlen]
    have h0 : k / 1000 = 0 := by omega
    have h0b : k / 100 = 0 := by omega
    simp [String.length, h0, h0b]
    rfl
  rcases Nat.lt_or_ge k 1000 with h3 | h3
  · have h1 : natStr k = ⟨[dChar (k / 100), dChar (k / 10), dChar k]⟩ := by
      rw [natStr, natDigitsAux_three (k + 1) k (by omega) h2 h3]
    rw [fmt4, padZeros, h1]
    have hlen : ¬ (4 ≤ (String.mk [dChar (k / 100), dChar (k / 10), dChar k]).length) := by
      simp [String.length]
    rw [if_neg hlen]
    have h0 : k / 1000 = 0 := by omega
    simp [String.length, h0]
    rfl
  · have h1 : natStr k = ⟨[dChar (k / 1000), dChar (k / 100), dChar (k / 10), dChar k]⟩ := by
      rw [natStr, natDigitsAux_four (k + 1) k (by omega) h3 (by omega)]
    rw [fmt4, padZeros, h1]
    have hlen : 4 ≤ (String.mk [dChar (k / 1000), dChar (k / 100), dChar (k / 10), dChar k]).length := by
      simp [String.length]
    rw [if_pos hlen]

lemma dChar_isDigit (d : ℕ) : isDigitC (dChar d) = true := by
  simp only [isDigitC, dChar_toNat, Bool.and_eq_true, decide_eq_true_eq]
  omega

lemma dChar_ne_dash (d : ℕ) : dChar d ≠ '-' := by
  intro h
  have h2 := dChar_toNat d
  rw [h] at h2
  have h3 : ('-').toNat = 45 := rfl
  omega

lemma dChar_ne_plus (d : ℕ) : dChar d ≠ '+' := by
  intro h
  have h2 := dChar_toNat d
  rw [h] at h2
  have h3 : ('+').toNat = 43 := rfl
  omega

lemma dChar_ne_underscore (d : ℕ) : dChar d ≠ '_' := by
  intro h
  have h2 := dChar_toNat d
  rw [h] at h2
  have h3 : ('_').toNat = 95 := rfl
  omega

lemma dChar_not_space (d : ℕ) : isSpaceC (dChar d) = false := by
  simp only [isSpaceC, dChar_toNat]
  simp only [Bool.or_eq_false_iff, Bool.and_eq_false_iff, decide_eq_false_iff_not]
  omega

lemma dval_dChar (d : ℕ) : dval (dChar d) = d % 10 := by
  simp only [dval, dChar_toNat]
  omega

lemma dChar_inj {a b : ℕ} (ha : a < 10) (hb : b < 10) (h : dChar a = dChar b) : a = b := by
  have h2 := dChar_toNat a
  rw [h, dChar_toNat b] at h2
  omega

lemma fmt4_inj {k1 k2 : ℕ} (h1 : k1 ≤ 9999) (h2 : k2 ≤ 9999) (h : fmt4 k1 = fmt4 k2) :
    k1 = k2 := by
  have hd : (fmt4 k1).data = (fmt4 k2).data := by rw [h]
  rw [fmt4_data k1 h1, fmt4_data k2 h2] at hd
  simp only [List.cons.injEq, and_true] at hd
  obtain ⟨e3, e2, e1, e0⟩ := hd
  have g3 := dChar_inj (by omega) (by omega) e3
  have g2 : k1 / 100 % 10 = k2 / 100 % 10 := by
    have := dChar_toNat (k1 / 100)
    rw [e2, dChar_toNat (k2 / 100)] at this
    omega
  have g1 : k1 / 10 % 10 = k2 / 10 % 10 := by
    have := dChar_toNat (k1 / 10)
    rw [e1, dChar_toNat (k2 / 10)] at this
    omega
  have g0 : k1 % 10 = k2 % 10 := by
    have := dChar_toNat k1
    rw [e0, dChar_toNat k2] at this
    omega
  omega

lemma ltGo_append (p a b : List Char) : ltGo (p ++ a) (p ++ b) = ltGo a b := by
  induction p with
  | nil => rfl
  | cons c rest ih =>
      simp only [List.cons_append, ltGo, lt_irrefl, if_neg (lt_irrefl c.toNat), if_false]
      exact ih

lemma strLtB_fmt4 (tag : String) {k1 k2 : ℕ} (h1 : k1 ≤ 9999) (h2 : k2 ≤ 9999) :
    strLtB (tag ++ fmt4 k1) (tag ++ fmt4 k2) = decide (k1 < k2) := by
  rw [strLtB, String.data_append, String.data_append, ltGo_append]
  rw [fmt4_data k1 h1, fmt4_data k2 h2]
  simp only [ltGo, dChar_toNat]
  rcases Nat.lt_trichotomy k1 k2 with h | h | h
  · rw [decide_eq_true h]
    split_ifs <;> first | rfl | (exfalso; omega)
  · subst h
    rw [decide_eq_false (lt_irrefl k1)]
    split_ifs <;> first | rfl | (exfalso; omega)
  · rw [decide_eq_false (Nat.not_lt.mpr (Nat.le_of_lt h))]
    split_ifs <;> first | rfl | (exfalso; omega)

lemma strApp_cancel {tag a b : String} (h : tag ++ a = tag ++ b) : a = b := by
  have hd : tag.data ++ a.data = tag.data ++ b.data := by
    rw [← String.data_append, ← String.data_append, h]
  exact String.ext (List.append_cancel_left hd)

lemma maxStep_some (a s : String) :
    maxStep (some a) s = if strLtB a s then some s else some a := rfl

lemma foldMax_fmt (tag : String) (l : List String) (j : ℕ) (hj : j ≤ 9999)
    (hl : ∀ s ∈ l, ∃ k, k ≤ 9999 ∧ s = tag ++ fmt4 k) :
    ∃ kk, kk ≤ 9999 ∧ (kk = j ∨ (tag ++ fmt4 kk) ∈ l) ∧ j ≤ kk ∧
      (∀ s k, s ∈ l → k ≤ 9999 → s = tag ++ fmt4 k → k ≤ kk) ∧
      List.foldl maxStep (some (tag ++ fmt4 j)) l = some (tag ++ fmt4 kk) := by
  induction l generalizing j with
  | nil => exact ⟨j, hj, Or.inl rfl, le_refl j, by simp, rfl⟩
  | cons s rest ih =>
      obtain ⟨k, hk, hs⟩ := hl s (by simp)
      have hstep : maxStep (some (tag ++ fmt4 j)) s = some (tag ++ fmt4 (max j k)) := by
        rw [hs, maxStep_some, strLtB_fmt4 tag hj hk]
        by_cases hjk : j < k
        · rw [if_pos (by simp [hjk]), Nat.max_eq_right (Nat.le_of_lt hjk)]
        · rw [if_neg (by simp [hjk]), Nat.max_eq_left (Nat.not_lt.mp hjk)]
      obtain ⟨kk, hkk9, hmem, hle, hall, hfold⟩ :=
        ih (max j k) (by omega) (fun s2 hs2 => hl s2 (by simp [hs2]))
      refine ⟨kk, hkk9, ?_, by omega, ?_, ?_⟩
      · rcases hmem with he | hin
        · rcases Nat.le_total j k with hle2 | hle2
          · rw [Nat.max_eq_right hle2] at he
            right
            rw [he, ← hs]
            simp
          · rw [Nat.max_eq_left hle2] at he
            left
            exact he
        · right
          simp [hin]
      · intro s2 k2 hmem2 hk2 hs2
        rcases List.mem_cons.mp hmem2 with rfl | hmem3
        · have hkk2 : k2 = k := fmt4_inj hk2 hk (strApp_cancel (hs2.symm.trans hs))
          omega
        · exact hall s2 k2 hmem3 hk2 hs2
      · rw [List.foldl_cons, hstep]
        exact hfold

lemma lexMax_fmt (tag : String) (l : List String) (K : ℕ) (hK : K ≤ 9999)
    (hl : ∀ s ∈ l, ∃ k, k ≤ 9999 ∧ s = tag ++ fmt4 k)
    (hmem : (tag ++ fmt4 K) ∈ l)
    (hmax : ∀ s k, s ∈ l → k ≤ 9999 → s = tag ++ fmt4 k → k ≤ K) :
    lexMax l = some (tag ++ fmt4 K) := by
  cases l with
  | nil => simp at hmem
  | cons s rest =>
      obtain ⟨k0, hk0, hs0⟩ := hl s (by simp)
      obtain ⟨kk, hkk9, hmem2, hle, hall, hfold⟩ :=
        foldMax_fmt tag rest k0 hk0 (fun s2 h => hl s2 (by simp [h]))
      have hstep0 : maxStep none s = some s := rfl
      have hfold2 : lexMax (s :: rest) = some (tag ++ fmt4 kk) := by
        rw [lexMax, List.foldl_cons, hstep0, hs0]
        exact hfold
      have hkkK : kk ≤ K := by
        rcases hmem2 with he | hin
        · subst he
          exact hmax s kk (by simp) hkk9 hs0
        · exact hmax _ kk (by simp [hin]) hkk9 rfl
      have hKkk : K ≤ kk := by
        rcases List.mem_cons.mp hmem with heq | hin
        · have : K = k0 := fmt4_inj hK hk0 (strApp_cancel (heq.trans hs0))
          omega
        · exact hall _ K hin hK rfl
      have : kk = K := Nat.le_antisymm hkkK hKkk
      rw [hfold2, this]

lemma splitDash_ne_nil (l : List Char) : splitDash l ≠ [] := by
  cases l with
  | nil => simp [splitDash]
  | cons c rest =>
      rw [splitDash]
      split_ifs
      · simp
      · cases h : splitDash rest <;> simp

lemma splitDash_no_dash (l : List Char) (h : ∀ c ∈ l, c ≠ '-') : splitDash l = [l] := by
  induction l with
  | nil => rfl
  | cons c rest ih =>
      rw [splitDash, if_neg (h c (by simp))]
      rw [ih (fun c2 hc2 => h c2 (by simp [hc2]))]

lemma splitDash_two_le (l : List Char) (h : '-' ∈ l) : 2 ≤ (splitDash l).length := by
  induction l with
  | nil => simp at h
  | cons c rest ih =>
      rw [splitDash]
      by_cases hc : c = '-'
      · rw [if_pos hc]
        have := splitDash_ne_nil rest
        have : 1 ≤ (splitDash rest).length := by
          cases hr : splitDash rest
          · exact absurd hr (splitDash_ne_nil rest)
          · simp
        simp
        omega
      · rw [if_neg hc]
        have hmem : '-' ∈ rest := by
          rcases List.mem_cons.mp h with he | hm
          · exact absurd he.symm hc
          · exact hm
        have h2 := ih hmem
        cases hr : splitDash rest with
        | nil => exact absurd hr (splitDash_ne_nil rest)
        | cons p ps =>
            rw [hr] at h2
            simp at h2 ⊢
            omega

lemma splitDash_last (xs ys : List Char) (h : ∀ c ∈ ys, c ≠ '-') :
    (splitDash (xs ++ '-' :: ys)).getLastD [] = ys := by
  induction xs with
  | nil =>
      rw [List.nil_append, splitDash, if_pos rfl, splitDash_no_dash ys h]
      rw [List.getLastD_cons, List.getLastD_cons]
      rfl
  | cons x xs ih =>
      rw [List.cons_append, splitDash]
      by_cases hx : x = '-'
      · rw [if_pos hx, List.getLastD_cons]
        exact ih
      · rw [if_neg hx]
        cases hr : splitDash (xs ++ '-' :: ys) with
        | nil => exact absurd hr (splitDash_ne_nil _)
        | cons p ps =>
            have hlen : 2 ≤ (splitDash (xs ++ '-' :: ys)).length :=
              splitDash_two_le _ (by simp)
            rw [hr] at hlen
            have hps : ps ≠ [] := by
              intro he
              rw [he] at hlen
              simp at hlen
            have ih2 : ps.getLastD p = ys := by
              have := ih
              rw [hr, List.getLastD_cons] at this
              exact this
            rw [List.getLastD_cons]
            cases ps with
            | nil => exact absurd rfl hps
            | cons q qs =>
                rw [List.getLastD_cons]
                rw [List.getLastD_cons] at ih2
                exact ih2

lemma dropWhile_all_false {p : Char → Bool} (l : List Char)
    (h : ∀ c ∈ l, p c = false) : List.dropWhile p l = l := by
  cases l with
  | nil => rfl
  | cons c rest => rw [List.dropWhile_cons, if_neg (by simp [h c (by simp)])]

lemma trimC_nospace (l : List Char) (h : ∀ c ∈ l, isSpaceC c = false) : trimC l = l := by
  rw [trimC, dropWhile_all_false l h]
  rw [dropWhile_all_false l.reverse (fun c hc => h c (List.mem_reverse.mp hc))]
  exact List.reverse_reverse l

lemma digitsGo_cons (acc : ℕ) (c : Char) (rest : List Char) :
    digitsGo acc (c :: rest) =
      if c = '_' then
        (match rest with
         | [] => none
         | d :: rest2 => if isDigitC d then digitsGo (acc * 10 + dval d) rest2 else none)
      else if isDigitC c then digitsGo (acc * 10 + dval c) rest else none := by
  rw [digitsGo.eq_def]

lemma digitsGo_digits (acc : ℕ) (ds : List ℕ) :
    digitsGo acc (ds.map dChar) = some (ds.foldl (fun a d => a * 10 + d % 10) acc) := by
  induction ds generalizing acc with
  | nil => rfl
  | cons d rest ih =>
      rw [List.map_cons, digitsGo_cons, if_neg (dChar_ne_underscore d), if_pos (dChar_isDigit d),
        dval_dChar]
      rw [ih (acc * 10 + d % 10), List.foldl_cons]

lemma fmt4_no_dash (K : ℕ) (hK : K ≤ 9999) : ∀ c ∈ (fmt4 K).data, c ≠ '-' := by
  rw [fmt4_data K hK]
  intro c hc
  simp only [List.mem_cons, List.not_mem_nil, or_false] at hc
  rcases hc with rfl | rfl | rfl | rfl <;> exact dChar_ne_dash _

lemma fmt4_no_space (K : ℕ) (hK : K ≤ 9999) : ∀ c ∈ (fmt4 K).data, isSpaceC c = false := by
  rw [fmt4_data K hK]
  intro c hc
  simp only [List.mem_cons, List.not_mem_nil, or_false] at hc
  rcases hc with rfl | rfl | rfl | rfl <;> exact dChar_not_space _

lemma pyInt_fmt4 (K : ℕ) (hK : K ≤ 9999) : pyInt (fmt4 K) = some (K : ℤ) := by
  rw [pyInt, trimC_nospace _ (fmt4_no_space K hK), fmt4_data K hK]
  rw [pyIntAux, if_neg (dChar_ne_plus _), if_neg (dChar_ne_dash _)]
  have hmap : [dChar (K / 100), dChar (K / 10), dChar K] = [K / 100, K / 10, K].map dChar := rfl
  have hparse : digitsParse (dChar (K / 1000) :: [dChar (K / 100), dChar (K / 10), dChar K]) =
      if isDigitC (dChar (K / 1000)) then
        digitsGo (dval (dChar (K / 1000))) [dChar (K / 100), dChar (K / 10), dChar K]
      else none := rfl
  rw [hparse, if_pos (dChar_isDigit _), dval_dChar, hmap, digitsGo_digits]
  have : [K / 100, K / 10, K].foldl (fun a d => a * 10 + d % 10) (K / 1000 % 10) = K := by
    simp only [List.foldl_cons, List.foldl_nil]
    omega
  rw [this]
  rfl

lemma strStarts_append (tag r : String) : strStarts (tag ++ r) tag = true := by
  rw [strStarts, String.data_append]
  exact List.isPrefixOf_iff_prefix.mpr (List.prefix_append _ _)

lemma monthTag_data (y m : ℕ) :
    (monthTag y m).data = (("QUOTE-" ++ natStr y) ++ padZeros 2 (natStr m)).data ++ ['-'] := by
  rw [monthTag, String.data_append]

lemma lastDashComp_tag_fmt4 (y m K : ℕ) (hK : K ≤ 9999) :
    lastDashComp (monthTag y m ++ fmt4 K) = fmt4 K := by
  rw [lastDashComp]
  have hd : (monthTag y m ++ fmt4 K).data =
      (("QUOTE-" ++ natStr y) ++ padZeros 2 (natStr m)).data ++ '-' :: (fmt4 K).data := by
    rw [String.data_append, monthTag_data, List.append_assoc]
    rfl
  rw [hd, splitDash_last _ _ (fmt4_no_dash K hK)]

lemma tag_fmt4_ne_empty (y m K : ℕ) : monthTag y m ++ fmt4 K ≠ "" := by
  intro h
  have hd : (monthTag y m ++ fmt4 K).data = [] := by rw [h]
  rw [String.data_append, monthTag_data] at hd
  simp at hd

lemma modeStep_simple (p : CustomerQuoteFinalizeRequest) {bc : ℚ} {q : ℤ}
    (hli : p.line_items = none ∨ p.line_items = some [])
    (hbc : p.base_cost = some bc) (hq : p.qty = some q) (hq0 : q ≠ 0) :
    modeStep p = .ok (quantize2 bc, q,
      ⟨"simple", [⟨"Base cost (" ++ pyOrStr p.category "n/a" ++ ")", q,
        quantize2 (quantize2 bc / (q : ℚ))⟩]⟩) := by
  rcases hli with h | h <;> simp only [modeStep, h, hbc, hq, if_neg hq0, reduceIte]

lemma modeStep_items (p : CustomerQuoteFinalizeRequest) {items : List LineItem}
    (hli : p.line_items = some items) (hne : items ≠ []) :
    modeStep p = .ok (subtotal_from_items items,
      items.foldl (fun s li => s + li.qty) 0,
      ⟨"items", items.map (fun li => ⟨li.description, li.qty, li.unit_cost⟩)⟩) := by
  simp only [modeStep, hli, if_neg hne]

lemma modeStep_simpleBranch (p : CustomerQuoteFinalizeRequest)
    (hli : p.line_items = none ∨ p.line_items = some []) :
    modeStep p = (match p.base_cost, p.qty with
      | some bc, some q =>
          if q = 0 then .error .divisionByZero
          else .ok (quantize2 bc, q,
            ⟨"simple", [⟨"Base cost (" ++ pyOrStr p.category "n/a" ++ ")", q,
              quantize2 (quantize2 bc / (q : ℚ))⟩]⟩)
      | _, _ => .error .missingCostInput) := by
  rcases hli with h | h <;> simp only [modeStep, h, reduceIte]

lemma modeStep_error_cases (p : CustomerQuoteFinalizeRequest) (e : FinalizeError)
    (h : modeStep p = .error e) : e = .missingCostInput ∨ e = .divisionByZero := by
  rcases hli : p.line_items with _ | items
  · rw [modeStep_simpleBranch p (Or.inl hli)] at h
    rcases hbc : p.base_cost with _ | bc <;> rcases hq : p.qty with _ | q <;>
        simp only [hbc, hq, Except.error.injEq] at h
    · exact Or.inl h.symm
    · exact Or.inl h.symm
    · exact Or.inl h.symm
    · by_cases hq0 : q = 0
      · rw [if_pos hq0] at h
        simp only [Except.error.injEq] at h
        exact Or.inr h.symm
      · rw [if_neg hq0] at h
        simp at h
  · by_cases hne : items = []
    · subst hne
      rw [modeStep_simpleBranch p (Or.inr hli)] at h
      rcases hbc : p.base_cost with _ | bc <;> rcases hq : p.qty with _ | q <;>
          simp only [hbc, hq, Except.error.injEq] at h
      · exact Or.inl h.symm
      · exact Or.inl h.symm
      · exact Or.inl h.symm
      · by_cases hq0 : q = 0
        · rw [if_pos hq0] at h
          simp only [Except.error.injEq] at h
          exact Or.inr h.symm
        · rw [if_neg hq0] at h
          simp at h
    · rw [modeStep_items p hli hne] at h
      simp at h

lemma modeStep_missing_iff (p : CustomerQuoteFinalizeRequest) :
    modeStep p = .error .missingCostInput ↔
      (p.line_items = none ∨ p.line_items = some []) ∧
      (p.base_cost = none ∨ p.qty = none) := by
  constructor
  · intro h
    rcases hli : p.line_items with _ | items
    · refine ⟨Or.inl rfl, ?_⟩
      rw [modeStep_simpleBranch p (Or.inl hli)] at h
      rcases hbc : p.base_cost with _ | bc <;> rcases hq : p.qty with _ | q <;>
          simp only [hbc, hq] at h
      · exact Or.inl rfl
      · exact Or.inl rfl
      · exact Or.inr rfl
      · by_cases hq0 : q = 0
        · rw [if_pos hq0] at h; simp at h
        · rw [if_neg hq0] at h; simp at h
    · by_cases hne : items = []
      · subst hne
        refine ⟨Or.inr rfl, ?_⟩
        rw [modeStep_simpleBranch p (Or.inr hli)] at h
        rcases hbc : p.base_cost with _ | bc <;> rcases hq : p.qty with _ | q <;>
            simp only [hbc, hq] at h
        · exact Or.inl rfl
        · exact Or.inl rfl
        · exact Or.inr rfl
        · by_cases hq0 : q = 0
          · rw [if_pos hq0] at h; simp at h
          · rw [if_neg hq0] at h; simp at h
      · rw [modeStep_items p hli hne] at h
        simp at h
  · rintro ⟨hli, hmiss⟩
    rw [modeStep_simpleBranch p hli]
    rcases hbc : p.base_cost with _ | bc <;> rcases hq : p.qty with _ | q
    · simp only [hbc, hq]
    · simp only [hbc, hq]
    · simp only [hbc, hq]
    · simp only [hbc, hq]
      rw [hbc, hq] at hmiss
      simp at hmiss

lemma schemaStep_eq_none_iff (db : Db) (p : CustomerQuoteFinalizeRequest) :
    schemaStep db p = none ↔
      (p.markup_schema_id = none ∨ p.markup_schema_id = some 0) ∧
      (activeSchemaId db = none ∨ activeSchemaId db = some 0) := by
  rcases hA : p.markup_schema_id with _ | j
  · rcases hB : activeSchemaId db with _ | i
    · simp [schemaStep, pyOrInt, hA, hB]
    · by_cases hi : i = 0 <;> simp [schemaStep, pyOrInt, hA, hB, hi]
  · by_cases hj : j = 0
    · subst hj
      rcases hB : activeSchemaId db with _ | i
      · simp [schemaStep, pyOrInt, hA, hB]
      · by_cases hi : i = 0 <;> simp [schemaStep, pyOrInt, hA, hB, hi]
    · simp [schemaStep, pyOrInt, hA, hj]

lemma finalize_error_db (db : Db) (y m : ℕ) (p : CustomerQuoteFinalizeRequest)
    (e : FinalizeError) (h : (finalize_quote db y m p).result = .error e) :
    (finalize_quote db y m p).db = db := by
  rcases hs : schemaStep db p with _ | sid
  · simp [finalize_quote, hs]
  · rcases hm : modeStep p with e2 | trip
    · simp [finalize_quote, hs, hm]
    · obtain ⟨subtotal, computed_qty, lij⟩ := trip
      by_cases hqn : next_quote_number (List.map (fun x => x.quote_number) db.quotes) y m ∈
          List.map (fun x => x.quote_number) db.quotes
      · simp [finalize_quote, hs, hm, hqn]
      · exfalso
        simp [finalize_quote, hs, hm, hqn] at h

lemma finalize_ok_inv (db : Db) (y m : ℕ) (p : CustomerQuoteFinalizeRequest)
    (row : CustomerQuote) (hok : (finalize_quote db y m p).result = .ok row) :
    ∃ sid subtotal computed_qty lij, schemaStep db p = some sid ∧
      modeStep p = .ok (subtotal, computed_qty, lij) := by
  rcases hs : schemaStep db p with _ | sid
  · exfalso
    simp [finalize_quote, hs] at hok
  · rcases hm : modeStep p with e2 | trip
    · exfalso
      simp [finalize_quote, hs, hm] at hok
    · obtain ⟨subtotal, computed_qty, lij⟩ := trip
      exact ⟨sid, subtotal, computed_qty, lij, rfl, rfl⟩

lemma finalize_ok_row (db : Db) (y m : ℕ) (p : CustomerQuoteFinalizeRequest)
    {sid : ℤ} {subtotal : ℚ} {computed_qty : ℤ} {lij : LineItemsJson} {row : CustomerQuote}
    (hs : schemaStep db p = some sid)
    (hm : modeStep p = .ok (subtotal, computed_qty, lij))
    (hok : (finalize_quote db y m p).result = .ok row) :
    row = ⟨next_quote_number (db.quotes.map (fun x => x.quote_number)) y m, p.project_id,
      p.selected_supplier_quote_id, sid, lij, subtotal, quantize2 p.fees, quantize2 p.tax,
      quantize2 (compute_customer_price subtotal (resolve_markup_pct db p (some computed_qty)) +
        quantize2 p.fees + quantize2 p.tax),
      p.valid_until, p.status,
      ⟨p, ⟨computed_qty, resolve_markup_pct db p (some computed_qty), subtotal,
        compute_customer_price subtotal (resolve_markup_pct db p (some computed_qty)),
        quantize2 p.fees, quantize2 p.tax,
        quantize2 (compute_customer_price subtotal (resolve_markup_pct db p (some computed_qty)) +
          quantize2 p.fees + quantize2 p.tax)⟩,
        next_quote_number (db.quotes.map (fun x => x.quote_number)) y m⟩⟩ := by
  by_cases hqn : next_quote_number (List.map (fun x => x.quote_number) db.quotes) y m ∈
      List.map (fun x => x.quote_number) db.quotes
  · exfalso
    simp [finalize_quote, hs, hm, hqn] at hok
  · simp [finalize_quote, hs, hm, hqn] at hok
    exact hok.symm

lemma quantize2_add_three (x y z : ℚ) :
    quantize2 (quantize2 x + quantize2 y + quantize2 z) =
      quantize2 x + quantize2 y + quantize2 z := by
  have h : quantize2 x + quantize2 y + quantize2 z =
      ((rnd2e (100 * x) + rnd2e (100 * y) + rnd2e (100 * z) : ℤ) : ℚ) / 100 := by
    rw [quantize2_eq x, quantize2_eq y, quantize2_eq z]
    push_cast
    ring
  rw [h, quantize2_div100]

lemma foldMin_active (l : List MarkupSchema) (a : MarkupSchema) :
    ∃ r, List.foldl (fun acc s =>
        match acc with
        | none => some s
        | some a2 => if s.id < a2.id then some s else some a2) (some a) l = some r ∧
      (r = a ∨ r ∈ l) ∧ r.id ≤ a.id ∧ ∀ s2 ∈ l, r.id ≤ s2.id := by
  induction l generalizing a with
  | nil => exact ⟨a, rfl, Or.inl rfl, le_refl _, by simp⟩
  | cons s l ih =>
      rw [List.foldl_cons]
      have hred : (match some a with
          | none => some s
          | some a2 => if s.id < a2.id then some s else some a2) =
          if s.id < a.id then some s else some a := rfl
      rw [hred]
      by_cases hlt : s.id < a.id
      · obtain ⟨r, hfold, hmem, hle, hall⟩ := ih s
        rw [if_pos hlt]
        refine ⟨r, hfold, ?_, by omega, ?_⟩
        · rcases hmem with he | hin
          · exact Or.inr (by simp [he])
          · exact Or.inr (by simp [hin])
        · intro s2 hs2
          rcases List.mem_cons.mp hs2 with rfl | hin
          · omega
          · exact hall s2 hin
      · obtain ⟨r, hfold, hmem, hle, hall⟩ := ih a
        rw [if_neg hlt]
        refine ⟨r, hfold, ?_, hle, ?_⟩
        · rcases hmem with he | hin
          · exact Or.inl he
          · exact Or.inr (by simp [hin])
        · intro s2 hs2
          rcases List.mem_cons.mp hs2 with rfl | hin
          · omega
          · exact hall s2 hin

lemma get_active_spec (db : Db) (s : MarkupSchema)
    (h : get_active_markup_schema db = some s) :
    s.is_active = true ∧ s ∈ db.schemas ∧
      ∀ s2 ∈ db.schemas, s2.is_active = true → s.id ≤ s2.id := by
  cases hf : db.schemas.filter (fun x => x.is_active) with
  | nil =>
      rw [get_active_markup_schema, hf] at h
      simp at h
  | cons a l =>
      rw [get_active_markup_schema, hf, List.foldl_cons] at h
      obtain ⟨r, hfold, hmem, hle, hall⟩ := foldMin_active l a
      rw [hfold] at h
      have hrs : r = s := by simpa using h
      subst hrs
      have hmem2 : r ∈ db.schemas.filter (fun x => x.is_active) := by
        rw [hf]
        rcases hmem with he | hin
        · simp [he]
        · simp [hin]
      obtain ⟨hin, hact⟩ := List.mem_filter.mp hmem2
      refine ⟨hact, hin, ?_⟩
      intro s2 hs2 hact2
      have hs2f : s2 ∈ db.schemas.filter (fun x => x.is_active) :=
        List.mem_filter.mpr ⟨hs2, hact2⟩
      rw [hf] at hs2f
      rcases List.mem_cons.mp hs2f with rfl | hin2
      · exact hle
      · exact hall s2 hin2

/-! ## Claim theorems -/

/-- Claim C1 (counterexample): the Price Calculator does not use round-half-up
semantics.  At `base_cost = 0.005`, `markup_pct = 0` the exact total is `0.005`;
the code (`quantize` with default `ROUND_HALF_EVEN`) yields `0.00`, while the
claimed round-half-up semantics yields `0.01`. -/
theorem C1_counterexample :
    compute_customer_price (1 / 200) 0 = 0 ∧
    compute_customer_price_halfUpSpec (1 / 200) 0 = 1 / 100 ∧
    compute_customer_price (1 / 200) 0 ≠ compute_customer_price_halfUpSpec (1 / 200) 0 := by
  refine ⟨?_, ?_, ?_⟩ <;>
    norm_num [compute_customer_price, compute_customer_price_halfUpSpec,
      quantize2, rnd2e, rnd2upSpec]

/-- Claim C1 (amended): `compute_customer_price(base_cost, markup_pct)` equals
`base_cost * (1 + markup_pct / 100)` rounded to 2 fractional digits using
round-half-EVEN (banker's rounding, the `Decimal.quantize` default): the result
is an exact multiple of 1/100 within half a cent of the exact value, and on a
tie the cent count is even.  In particular `price(100.00, 0) = 100.00` and
`price(1234.56, 35) = 1666.66`, and the function is total (never fails). -/
theorem C1_amended :
    (∀ base_cost markup_pct : ℚ, ∃ m : ℤ,
      compute_customer_price base_cost markup_pct = (m : ℚ) / 100 ∧
      (|base_cost * (1 + markup_pct / 100) - (m : ℚ) / 100| < 1 / 200 ∨
        (|base_cost * (1 + markup_pct / 100) - (m : ℚ) / 100| = 1 / 200 ∧ m % 2 = 0))) ∧
    compute_customer_price 100 0 = 100 ∧
    compute_customer_price (123456 / 100) 35 = 166666 / 100 := by
  refine ⟨?_, ?_, ?_⟩
  · intro b p
    refine ⟨rnd2e (100 * (b * (1 + p / 100))), rfl, ?_⟩
    have h := rnd2e_char (100 * (b * (1 + p / 100)))
    set x : ℚ := 100 * (b * (1 + p / 100)) with hx
    have hrw : b * (1 + p / 100) - ((rnd2e x : ℚ)) / 100 = (x - (rnd2e x : ℚ)) / 100 := by
      rw [hx]; ring
    rw [hrw, abs_div, abs_of_pos (by norm_num : (0 : ℚ) < 100)]
    rcases h with h | ⟨h, he⟩
    · left; linarith
    · right; exact ⟨by rw [h]; norm_num, he⟩
  · norm_num [compute_customer_price, quantize2, rnd2e]
  · norm_num [compute_customer_price, quantize2, rnd2e]

/-- Claim C2 (counterexample): an absent/null `max_qty` does NOT mean "no upper
limit (+infinity)" — the code substitutes the sentinel `10**9`.  With a single
band `min_qty = 1`, `max_qty` null, `markup_percent = 35` and the positive
quantity `10^9 + 1`, the code returns `0` while the claimed +infinity semantics
returns `35`. -/
theorem C2_counterexample :
    find_markup_percent_from_rules [("im", [⟨some 1, none, some 35⟩])] "im" (10 ^ 9 + 1) = 0 ∧
    find_markup_percent_specInf [("im", [⟨some 1, none, some 35⟩])] "im" (10 ^ 9 + 1) = 35 ∧
    find_markup_percent_from_rules [("im", [⟨some 1, none, some 35⟩])] "im" (10 ^ 9 + 1) ≠
      find_markup_percent_specInf [("im", [⟨some 1, none, some 35⟩])] "im" (10 ^ 9 + 1) := by
  refine ⟨by decide, by decide, by decide⟩

/-- Claim C2 (amended): for every rules mapping, category and quantity, if the
category is absent the resolver returns 0; otherwise it scans the category's
band list in stored order and returns the `markup_percent` of the first band
with `min_qty <= qty <= effective upper bound`, where an absent, null (or zero)
`max_qty` gives the effective upper bound `10^9` rather than +infinity; if no
band matches it returns 0. -/
theorem C2_amended (rules : Rules) (category : String) (qty : ℤ) :
    (rules.get category = none → find_markup_percent_from_rules rules category qty = 0) ∧
    (∀ bands, rules.get category = some bands →
      (∀ b ∈ bands, ¬(b.minQ ≤ qty ∧ qty ≤ b.maxQ)) →
      find_markup_percent_from_rules rules category qty = 0) ∧
    (∀ bands pre b post, rules.get category = some bands → bands = pre ++ b :: post →
      (∀ b' ∈ pre, ¬(b'.minQ ≤ qty ∧ qty ≤ b'.maxQ)) →
      (b.minQ ≤ qty ∧ qty ≤ b.maxQ) →
      find_markup_percent_from_rules rules category qty = b.pct) ∧
    (∀ b : Band, (b.max_qty = none ∨ b.max_qty = some 0) → b.maxQ = 10 ^ 9) := by
  refine ⟨?_, ?_, ?_, ?_⟩
  · intro h
    rw [find_markup_percent_from_rules, h]
  · intro bands hget h
    rw [find_markup_percent_from_rules, hget]
    exact scanBands_eq_zero qty bands h
  · intro bands pre b post hget hsplit hpre hb
    rw [find_markup_percent_from_rules, hget, hsplit]
    exact scanBands_first qty pre b post hpre hb
  · intro b hb
    rcases hb with h | h <;> simp [Band.maxQ, h]

/-- Claim C2 (witness): the amended first-match rule applied to a concrete rule
set — a band `1..49 -> 35` followed by an unbounded band `50.. -> 20` and
`qty = 250` resolves to `20`. -/
theorem C2_witness :
    find_markup_percent_from_rules
      [("im", [⟨some 1, some 49, some 35⟩, ⟨some 50, none, some 20⟩])] "im" 250 = (20 : ℚ) :=
  (C2_amended [("im", [⟨some 1, some 49, some 35⟩, ⟨some 50, none, some 20⟩])] "im" 250).2.2.1
    [⟨some 1, some 49, some 35⟩, ⟨some 50, none, some 20⟩]
    [⟨some 1, some 49, some 35⟩] ⟨some 50, none, some 20⟩ []
    (by decide) rfl (by decide) (by decide)

/-- Claim C9: when the lexicographically greatest stored quote number carrying
the current month's tag has a trailing dash-component that `int(...)` cannot
parse, the generator treats the suffix as 0 and returns the tag followed by
`0001`.  (`next_quote_number` is a total function of its inputs: the `except`
clause means it never raises.) -/
theorem C9_unparsable_suffix (stored : List String) (y m : ℕ) (l : String)
    (hmax : lexMax (stored.filter (fun s => strStarts s (monthTag y m))) = some l)
    (hne : l ≠ "")
    (hparse : pyInt (lastDashComp l) = none) :
    next_quote_number stored y m = monthTag y m ++ "0001" := by
  simp only [next_quote_number]
  rw [hmax]
  simp only [if_neg hne, hparse, Option.getD_none]
  rfl

/-- Claim C9 (witness): with a single stored number `QUOTE-202610-junk` (suffix
`junk` unparsable), October 2026 generates `QUOTE-202610-0001`. -/
theorem C9_witness :
    next_quote_number ["QUOTE-202610-junk"] 2026 10 = monthTag 2026 10 ++ "0001" :=
  C9_unparsable_suffix ["QUOTE-202610-junk"] 2026 10 "QUOTE-202610-junk"
    (by decide) (by decide) (by decide)

/-- Claim C4 (counterexample): the generated number is not always of the form
`QUOTE-YYYYMM-####` with a 4-digit zero-padded sequence, and suffixes are not
always strictly increasing: with `QUOTE-202610-9999` stored, October 2026
generates `QUOTE-202610-10000` (a 5-character suffix), and once that number is
stored the next generated number is `QUOTE-202610-10000` again (the
lexicographic maximum of the column is still `...-9999`), a duplicate. -/
theorem C4_counterexample :
    next_quote_number ["QUOTE-202610-9999"] 2026 10 = "QUOTE-202610-10000" ∧
    (lastDashComp (next_quote_number ["QUOTE-202610-9999"] 2026 10)).length ≠ 4 ∧
    next_quote_number ["QUOTE-202610-10000", "QUOTE-202610-9999"] 2026 10
      = "QUOTE-202610-10000" := by
  refine ⟨by decide, by decide, by decide⟩

/-- Claim C4 (amended): `next_quote_number` returns the current month's tag
`QUOTE-YYYYMM-` followed by the decimal representation, zero-padded to at least
4 digits, of 1 plus the suffix of the lexicographically greatest stored number
carrying that tag (or `0001` if none exists, so a new month resets the
sequence); as long as every stored current-month number has a 4-digit suffix
at most `9998`, the generated number extends the maximal suffix `K` to `K + 1`,
is itself 4-digit zero-padded, and is fresh (not yet stored), so sequential
generation within such a month is strictly increasing starting at `0001`. -/
theorem C4_amended (stored : List String) (y m : ℕ) :
    ((∀ s ∈ stored, strStarts s (monthTag y m) = false) →
      next_quote_number stored y m = monthTag y m ++ "0001") ∧
    (∀ K : ℕ, K ≤ 9998 →
      (∀ s ∈ stored, strStarts s (monthTag y m) = true →
        ∃ k, k ≤ K ∧ s = monthTag y m ++ fmt4 k) →
      (monthTag y m ++ fmt4 K) ∈ stored →
      next_quote_number stored y m = monthTag y m ++ fmt4 (K + 1) ∧
        (fmt4 (K + 1)).length = 4 ∧
        (monthTag y m ++ fmt4 (K + 1)) ∉ stored) := by
  constructor
  · intro h
    have hfil : stored.filter (fun s => strStarts s (monthTag y m)) = [] :=
      List.filter_eq_nil_iff.mpr (fun s hs => by simp [h s hs])
    simp only [next_quote_number]
    rw [hfil]
    rfl
  · intro K hK hall hmem
    have h9 : K ≤ 9999 := by omega
    have hmem2 : (monthTag y m ++ fmt4 K) ∈
        stored.filter (fun s => strStarts s (monthTag y m)) :=
      List.mem_filter.mpr ⟨hmem, strStarts_append _ _⟩
    have hl : ∀ s ∈ stored.filter (fun s => strStarts s (monthTag y m)),
        ∃ k, k ≤ 9999 ∧ s = monthTag y m ++ fmt4 k := by
      intro s hs
      obtain ⟨h1, h2⟩ := List.mem_filter.mp hs
      obtain ⟨k, hk, he⟩ := hall s h1 h2
      exact ⟨k, by omega, he⟩
    have hmax : ∀ s k, s ∈ stored.filter (fun s => strStarts s (monthTag y m)) →
        k ≤ 9999 → s = monthTag y m ++ fmt4 k → k ≤ K := by
      intro s k hs hk he
      obtain ⟨h1, h2⟩ := List.mem_filter.mp hs
      obtain ⟨k2, hk2, he2⟩ := hall s h1 h2
      have : k = k2 := fmt4_inj hk (by omega) (strApp_cancel (he.symm.trans he2))
      omega
    have hlex := lexMax_fmt (monthTag y m)
      (stored.filter (fun s => strStarts s (monthTag y m))) K h9 hl hmem2 hmax
    refine ⟨?_, ?_, ?_⟩
    · simp only [next_quote_number]
      rw [hlex]
      simp only [if_neg (tag_fmt4_ne_empty y m K)]
      rw [lastDashComp_tag_fmt4 y m K h9, pyInt_fmt4 K h9]
      simp only [Option.getD_some]
      congr 1
    · have := fmt4_data (K + 1) (by omega)
      have hlen : (fmt4 (K + 1)).length = (fmt4 (K + 1)).data.length := rfl
      rw [hlen, this]
      rfl
    · intro hin
      obtain ⟨k, hk, he⟩ := hall _ hin (strStarts_append _ _)
      have : K + 1 = k := fmt4_inj (by omega) (by omega) (strApp_cancel he)
      omega

/-- Claim C4 (witness): concrete instantiations of both parts of the amended
claim — an empty store starts at `0001`; a store holding `QUOTE-202610-0007`
and last month's `QUOTE-202609-0042` generates the fresh `QUOTE-202610-0008`. -/
theorem C4_witness :
    next_quote_number [] 2026 10 = monthTag 2026 10 ++ "0001" ∧
    next_quote_number ["QUOTE-202610-0007", "QUOTE-202609-0042"] 2026 10
      = monthTag 2026 10 ++ fmt4 8 ∧
    monthTag 2026 10 ++ fmt4 8 ∉ ["QUOTE-202610-0007", "QUOTE-202609-0042"] := by
  refine ⟨(C4_amended [] 2026 10).1 (by simp), ?_, ?_⟩
  · exact ((C4_amended ["QUOTE-202610-0007", "QUOTE-202609-0042"] 2026 10).2 7 (by norm_num)
      (by decide) (by decide)).1
  · exact ((C4_amended ["QUOTE-202610-0007", "QUOTE-202609-0042"] 2026 10).2 7 (by norm_num)
      (by decide) (by decide)).2.2

/-- Claim C3: in simple mode (line_items absent or empty, base_cost and qty
present) finalize sets the subtotal to base_cost rounded to 2 decimals, the
computed quantity to qty, and derives a single synthetic line item with
`per_unit = subtotal / qty` rounded to 2 decimals, so the stored line-item
list is never empty; concretely, `base_cost=1234.56, qty=250, category="im"`
under an active schema whose im band `200..999` carries 22%, with `fees=25.00`
and `tax=0.00`, yields `before_extras = 1506.16` and
`total = before_extras + 25.00 = 1531.16`. -/
theorem C3_simple_mode :
    (∀ (db : Db) (y m : ℕ) (p : CustomerQuoteFinalizeRequest) (bc : ℚ) (q : ℤ)
        (row : CustomerQuote),
      (p.line_items = none ∨ p.line_items = some []) →
      p.base_cost = some bc → p.qty = some q → q ≠ 0 →
      (finalize_quote db y m p).result = .ok row →
      row.subtotal = quantize2 bc ∧
      row.snapshot.calcRec.computed_qty = q ∧
      row.line_items = ⟨"simple", [⟨"Base cost (" ++ pyOrStr p.category "n/a" ++ ")", q,
        quantize2 (quantize2 bc / (q : ℚ))⟩]⟩ ∧
      row.line_items.items ≠ []) ∧
    (∃ row, (finalize_quote exDb 2026 10 exPayload).result = .ok row ∧
      row.snapshot.calcRec.before_extras = 150616 / 100 ∧
      row.total = 153116 / 100 ∧ row.fees = 25 ∧ row.tax = 0) := by
  constructor
  · intro db y m p bc q row hli hbc hq hq0 hok
    rcases hs : schemaStep db p with _ | sid
    · exfalso
      simp [finalize_quote, hs] at hok
    · have hrow := finalize_ok_row db y m p hs (modeStep_simple p hli hbc hq hq0) hok
      subst hrow
      exact ⟨rfl, rfl, rfl, by simp⟩
  · have hschema : schemaStep exDb exPayload = some 1 := by decide
    have hpct : resolve_markup_pct exDb exPayload (some 250) = 22 := by decide
    have hli : exPayload.line_items = none := rfl
    have hbc : exPayload.base_cost = some (123456 / 100) := rfl
    have hq : exPayload.qty = some 250 := rfl
    have hfees : exPayload.fees = 25 := rfl
    have htax : exPayload.tax = 0 := rfl
    have hquotes : exDb.quotes = [] := rfl
    simp only [finalize_quote, hschema, modeStep, hli, hbc, hq, hfees, htax, hquotes,
      List.map_nil, List.not_mem_nil, if_false, reduceIte]
    refine ⟨_, rfl, ?_, ?_, ?_, ?_⟩
    · simp only [hpct]
      norm_num [compute_customer_price, quantize2, rnd2e]
    · simp only [hpct]
      norm_num [compute_customer_price, quantize2, rnd2e]
    · norm_num [quantize2, rnd2e]
    · norm_num [quantize2, rnd2e]

/-- Claim C3 (witness): the general simple-mode facts instantiated on the
concrete example run. -/
theorem C3_witness :
    ∃ row, (finalize_quote exDb 2026 10 exPayload).result = .ok row ∧
      row.subtotal = quantize2 (123456 / 100) ∧
      row.snapshot.calcRec.computed_qty = 250 ∧
      row.line_items.items ≠ [] := by
  obtain ⟨row, hok, -, -, -, -⟩ := C3_simple_mode.2
  obtain ⟨h1, h2, -, h4⟩ := C3_simple_mode.1 exDb 2026 10 exPayload (123456 / 100) 250 row
    (Or.inl rfl) rfl rfl (by decide) hok
  exact ⟨row, hok, h1, h2, h4⟩

/-- Claim C6: for every finalized quote, `total` equals
`before_extras + fees + tax` where each component is independently an exact
multiple of 1/100 (rounded to 2 decimals before summation), and re-deriving
the total from the snapshot's recorded intermediate values reproduces the
stored total exactly (the snapshot's components sum to the stored total and
the snapshot's total equals it). -/
theorem C6_total_invariant (db : Db) (y m : ℕ) (p : CustomerQuoteFinalizeRequest)
    (row : CustomerQuote) (hok : (finalize_quote db y m p).result = .ok row) :
    row.total = row.snapshot.calcRec.before_extras + row.snapshot.calcRec.fees +
      row.snapshot.calcRec.tax ∧
    row.snapshot.calcRec.total = row.total ∧
    row.fees = row.snapshot.calcRec.fees ∧ row.tax = row.snapshot.calcRec.tax ∧
    row.subtotal = row.snapshot.calcRec.subtotal ∧
    (∃ a b c : ℤ, row.snapshot.calcRec.before_extras = (a : ℚ) / 100 ∧
      row.snapshot.calcRec.fees = (b : ℚ) / 100 ∧ row.snapshot.calcRec.tax = (c : ℚ) / 100) := by
  obtain ⟨sid, st, cq, lij, hs, hm⟩ := finalize_ok_inv db y m p row hok
  have hrow := finalize_ok_row db y m p hs hm hok
  subst hrow
  refine ⟨?_, rfl, rfl, rfl, rfl, ?_⟩
  · simp only [compute_customer_price]
    exact quantize2_add_three _ _ _
  · exact ⟨rnd2e (100 * (st * (1 + resolve_markup_pct db p (some cq) / 100))),
      rnd2e (100 * p.fees), rnd2e (100 * p.tax), rfl, rfl, rfl⟩

/-- Claim C6 (witness): the totals invariant on the concrete example run. -/
theorem C6_witness :
    ∃ row, (finalize_quote exDb 2026 10 exPayload).result = .ok row ∧
      row.total = row.snapshot.calcRec.before_extras + row.snapshot.calcRec.fees +
        row.snapshot.calcRec.tax ∧
      row.snapshot.calcRec.total = row.total := by
  obtain ⟨row, hok⟩ : ∃ row, (finalize_quote exDb 2026 10 exPayload).result = .ok row :=
    ⟨_, rfl⟩
  have h := C6_total_invariant exDb 2026 10 exPayload row hok
  exact ⟨row, hok, h.1, h.2.1⟩

/-- Claim C7: for every non-empty line_items list, finalize computes the
subtotal as the sum over items of `unit_cost * qty` rounded to 2 decimals
after the summation (not per item), and the computed quantity as the sum of
the item quantities; in particular the items
`[{qty:2, unit_cost:10.00}, {qty:3, unit_cost:5.00}]` yield subtotal 35.00. -/
theorem C7_itemized :
    (∀ (db : Db) (y m : ℕ) (p : CustomerQuoteFinalizeRequest) (items : List LineItem)
        (row : CustomerQuote),
      p.line_items = some items → items ≠ [] →
      (finalize_quote db y m p).result = .ok row →
      row.subtotal = quantize2 (items.foldl (fun s li => s + li.unit_cost * (li.qty : ℚ)) 0) ∧
      row.snapshot.calcRec.computed_qty = items.foldl (fun s li => s + li.qty) 0 ∧
      row.line_items = ⟨"items", items.map (fun li => ⟨li.description, li.qty, li.unit_cost⟩)⟩) ∧
    subtotal_from_items [⟨"two units", 2, 10⟩, ⟨"three units", 3, 5⟩] = 35 := by
  constructor
  · intro db y m p items row hli hne hok
    rcases hs : schemaStep db p with _ | sid
    · exfalso
      simp [finalize_quote, hs] at hok
    · have hrow := finalize_ok_row db y m p hs (modeStep_items p hli hne) hok
      subst hrow
      exact ⟨rfl, rfl, rfl⟩
  · norm_num [subtotal_from_items, quantize2, rnd2e]

/-- Claim C7 (witness): the itemized-mode facts instantiated on a concrete
two-item run (computed quantity 5). -/
theorem C7_witness :
    ∃ row, (finalize_quote exDb 2026 10 exPayloadItems).result = .ok row ∧
      row.subtotal = quantize2
        ([(⟨"two units", 2, 10⟩ : LineItem), ⟨"three units", 3, 5⟩].foldl
          (fun s li => s + li.unit_cost * (li.qty : ℚ)) 0) ∧
      row.snapshot.calcRec.computed_qty = 5 := by
  obtain ⟨row, hok⟩ : ∃ row, (finalize_quote exDb 2026 10 exPayloadItems).result = .ok row :=
    ⟨_, rfl⟩
  obtain ⟨h1, h2, -⟩ := C7_itemized.1 exDb 2026 10 exPayloadItems
    [⟨"two units", 2, 10⟩, ⟨"three units", 3, 5⟩] row rfl (by simp) hok
  refine ⟨row, hok, h1, ?_⟩
  rw [h2]
  rfl

/-- Claim C5 (amended): finalize raises `NoActiveSchema` exactly when the
request supplies no nonzero `markup_schema_id` (absent or 0 — Python `or`
treats 0 as falsy) and no active schema with nonzero id exists; it raises
`MissingCostInput` exactly when a schema is resolvable AND `line_items` is
empty or absent AND `base_cost` or `qty` is absent (the schema check runs
first, so `NoActiveSchema` wins when both fail); in every error case no
`CustomerQuote` record is persisted — storage is unchanged. -/
theorem C5_error_contract (db : Db) (y m : ℕ) (p : CustomerQuoteFinalizeRequest) :
    ((finalize_quote db y m p).result = .error .noActiveSchema ↔
      (p.markup_schema_id = none ∨ p.markup_schema_id = some 0) ∧
      (activeSchemaId db = none ∨ activeSchemaId db = some 0)) ∧
    ((finalize_quote db y m p).result = .error .missingCostInput ↔
      ¬((p.markup_schema_id = none ∨ p.markup_schema_id = some 0) ∧
        (activeSchemaId db = none ∨ activeSchemaId db = some 0)) ∧
      (p.line_items = none ∨ p.line_items = some []) ∧
      (p.base_cost = none ∨ p.qty = none)) ∧
    (∀ e, (finalize_quote db y m p).result = .error e → (finalize_quote db y m p).db = db) := by
  refine ⟨?_, ?_, fun e h => finalize_error_db db y m p e h⟩
  · rcases hs : schemaStep db p with _ | sid
    · exact iff_of_true (by simp [finalize_quote, hs]) ((schemaStep_eq_none_iff db p).mp hs)
    · have hnc : ¬((p.markup_schema_id = none ∨ p.markup_schema_id = some 0) ∧
          (activeSchemaId db = none ∨ activeSchemaId db = some 0)) := by
        intro hc
        have h2 := (schemaStep_eq_none_iff db p).mpr hc
        rw [hs] at h2
        simp at h2
      refine iff_of_false ?_ hnc
      rcases hm : modeStep p with e2 | trip
      · rcases modeStep_error_cases p e2 hm with rfl | rfl <;> simp [finalize_quote, hs, hm]
      · obtain ⟨st, cq, lij⟩ := trip
        by_cases hqn : next_quote_number (List.map (fun x => x.quote_number) db.quotes) y m ∈
            List.map (fun x => x.quote_number) db.quotes
        · simp [finalize_quote, hs, hm, hqn]
        · simp [finalize_quote, hs, hm, hqn]
  · rcases hs : schemaStep db p with _ | sid
    · have hc := (schemaStep_eq_none_iff db p).mp hs
      refine iff_of_false (by simp [finalize_quote, hs]) ?_
      rintro ⟨hn, -⟩
      exact hn hc
    · have hnc : ¬((p.markup_schema_id = none ∨ p.markup_schema_id = some 0) ∧
          (activeSchemaId db = none ∨ activeSchemaId db = some 0)) := by
        intro hc
        have h2 := (schemaStep_eq_none_iff db p).mpr hc
        rw [hs] at h2
        simp at h2
      rcases hm : modeStep p with e2 | trip
      · simp only [finalize_quote, hs, hm, Except.error.injEq]
        constructor
        · intro he2
          subst he2
          exact ⟨hnc, (modeStep_missing_iff p).mp hm⟩
        · rintro ⟨-, hconj⟩
          have h3 := (modeStep_missing_iff p).mpr hconj
          rw [hm] at h3
          simpa using h3
      · obtain ⟨st, cq, lij⟩ := trip
        refine iff_of_false ?_ ?_
        · by_cases hqn : next_quote_number (List.map (fun x => x.quote_number) db.quotes) y m ∈
              List.map (fun x => x.quote_number) db.quotes
          · simp [finalize_quote, hs, hm, hqn]
          · simp [finalize_quote, hs, hm, hqn]
        · rintro ⟨-, hconj⟩
          have h3 := (modeStep_missing_iff p).mpr hconj
          rw [hm] at h3
          simp at h3

/-- Claim C5 (counterexample): the claimed iffs fail as stated.  A request
supplying `markup_schema_id = 0` still raises `NoActiveSchema` when no active
schema exists (the claim says the error fires only when no id is supplied);
and a request with no cost data against an empty database raises
`NoActiveSchema`, not `MissingCostInput`, although line_items and base_cost
are absent (the claim's second "exactly when" requires `MissingCostInput`
there). -/
theorem C5_counterexample :
    (finalize_quote (⟨[], []⟩ : Db) 2026 10
        { project_id := 1, markup_schema_id := some 0,
          base_cost := some 10, qty := some 1 }).result = .error .noActiveSchema ∧
    ((finalize_quote (⟨[], []⟩ : Db) 2026 10 { project_id := 1 }).result
        = .error .noActiveSchema ∧
      (finalize_quote (⟨[], []⟩ : Db) 2026 10 { project_id := 1 }).result
        ≠ .error .missingCostInput) := by
  refine ⟨by decide, by decide, by decide⟩

/-- Claim C5 (witness): the amended contract instantiated on an empty
database — `NoActiveSchema` fires and storage is unchanged. -/
theorem C5_witness :
    (finalize_quote (⟨[], []⟩ : Db) 2026 10 { project_id := 1 }).result
      = .error .noActiveSchema ∧
    (finalize_quote (⟨[], []⟩ : Db) 2026 10 { project_id := 1 }).db = (⟨[], []⟩ : Db) := by
  have h := C5_error_contract ⟨[], []⟩ 2026 10 { project_id := 1 }
  have h1 := h.1.mpr ⟨Or.inl rfl, Or.inl rfl⟩
  exact ⟨h1, h.2.2 .noActiveSchema h1⟩

/-- Claim C8 (counterexample): a unique-constraint conflict is NOT retried.
With `QUOTE-202610-9999` and `QUOTE-202610-10000` stored, the generator
produces `QUOTE-202610-10000` (the lexicographic maximum is `...9999`), the
single insert hits the unique constraint, and finalize surfaces the conflict
after exactly one insert attempt with storage unchanged. -/
theorem C8_counterexample :
    (finalize_quote exDb8 2026 10 exPayload8).result = .error .uniqueViolation ∧
    (finalize_quote exDb8 2026 10 exPayload8).insertAttempts = 1 ∧
    (finalize_quote exDb8 2026 10 exPayload8).db = exDb8 := by
  refine ⟨by decide, by decide, by decide⟩

/-- Claim C8 (amended): finalize makes at most one insert attempt (there is
no retry loop); when persisting raises a unique-constraint violation on the
quote number, the conflict propagates to the caller on the first occurrence —
the generated number already exists, storage is unchanged, and exactly one
insert was attempted. -/
theorem C8_amended (db : Db) (y m : ℕ) (p : CustomerQuoteFinalizeRequest) :
    (finalize_quote db y m p).insertAttempts ≤ 1 ∧
    ((finalize_quote db y m p).result = .error .uniqueViolation →
      next_quote_number (db.quotes.map (fun x => x.quote_number)) y m ∈
        db.quotes.map (fun x => x.quote_number) ∧
      (finalize_quote db y m p).db = db ∧
      (finalize_quote db y m p).insertAttempts = 1) := by
  rcases hs : schemaStep db p with _ | sid
  · simp [finalize_quote, hs]
  · rcases hm : modeStep p with e2 | trip
    · rcases modeStep_error_cases p e2 hm with rfl | rfl <;> simp [finalize_quote, hs, hm]
    · obtain ⟨st, cq, lij⟩ := trip
      by_cases hqn : next_quote_number (List.map (fun x => x.quote_number) db.quotes) y m ∈
          List.map (fun x => x.quote_number) db.quotes
      · simp [finalize_quote, hs, hm, hqn]
      · simp [finalize_quote, hs, hm, hqn]

/-- Claim C8 (witness): the amended no-retry contract instantiated on the
collision scenario. -/
theorem C8_witness :
    next_quote_number (exDb8.quotes.map (fun x => x.quote_number)) 2026 10 ∈
      exDb8.quotes.map (fun x => x.quote_number) ∧
    (finalize_quote exDb8 2026 10 exPayload8).db = exDb8 ∧
    (finalize_quote exDb8 2026 10 exPayload8).insertAttempts = 1 :=
  (C8_amended exDb8 2026 10 exPayload8).2 (by decide)

/-- Claim C10: when a finalize request supplies `markup_schema_id` but no
`markup_override_pct`, the markup percentage is resolved through
`determine_markup_pct`, i.e. from the rules of the lowest-id active markup
schema (`get_active_markup_schema` returns an active schema of minimal id),
not from the schema named by the request: two requests differing only in the
supplied id produce the same markup percent and total, while the supplied
(nonzero) id is what gets stored in `markup_schema_id`. -/
theorem C10_schema_id_ignored (db : Db) (y m : ℕ) (p : CustomerQuoteFinalizeRequest)
    (j1 j2 : ℤ) (hov : p.markup_override_pct = none) :
    (∀ row1 row2,
      (finalize_quote db y m { p with markup_schema_id := some j1 }).result = .ok row1 →
      (finalize_quote db y m { p with markup_schema_id := some j2 }).result = .ok row2 →
      row1.snapshot.calcRec.markup_pct = row2.snapshot.calcRec.markup_pct ∧
      row1.total = row2.total ∧
      row1.snapshot.calcRec.markup_pct =
        determine_markup_pct db (pyOrStr p.category "im")
          (pyOrQty (some row1.snapshot.calcRec.computed_qty) p.qty)) ∧
    (j1 ≠ 0 → ∀ row1,
      (finalize_quote db y m { p with markup_schema_id := some j1 }).result = .ok row1 →
      row1.markup_schema_id = j1) ∧
    (∀ s, get_active_markup_schema db = some s →
      s.is_active = true ∧ s ∈ db.schemas ∧
        ∀ s2 ∈ db.schemas, s2.is_active = true → s.id ≤ s2.id) := by
  refine ⟨?_, ?_, fun s hs => get_active_spec db s hs⟩
  · intro row1 row2 hok1 hok2
    obtain ⟨sid1, st1, cq1, lij1, hs1, hm1⟩ := finalize_ok_inv _ _ _ _ _ hok1
    obtain ⟨sid2, st2, cq2, lij2, hs2, hm2⟩ := finalize_ok_inv _ _ _ _ _ hok2
    have hmm : (Except.ok (st1, cq1, lij1) :
        Except FinalizeError (ℚ × ℤ × LineItemsJson)) = .ok (st2, cq2, lij2) := by
      have heq : modeStep { p with markup_schema_id := some j1 } =
          modeStep { p with markup_schema_id := some j2 } := rfl
      rw [← hm1, ← hm2, heq]
    obtain ⟨he1, he2, he3⟩ : st1 = st2 ∧ cq1 = cq2 ∧ lij1 = lij2 := by
      simpa using hmm
    subst he1
    subst he2
    subst he3
    have hrow1 := finalize_ok_row _ _ _ _ hs1 hm1 hok1
    have hrow2 := finalize_ok_row _ _ _ _ hs2 hm2 hok2
    subst hrow1
    subst hrow2
    have hov1 : ({ p with markup_schema_id := some j1 } :
        CustomerQuoteFinalizeRequest).markup_override_pct = none := hov
    refine ⟨rfl, rfl, ?_⟩
    show resolve_markup_pct db { p with markup_schema_id := some j1 } (some cq1) = _
    rw [resolve_markup_pct]
    rw [show ({ p with markup_schema_id := some j1 } :
        CustomerQuoteFinalizeRequest).markup_override_pct = p.markup_override_pct from rfl, hov]
  · intro hj1 row1 hok1
    obtain ⟨sid1, st1, cq1, lij1, hs1, hm1⟩ := finalize_ok_inv _ _ _ _ _ hok1
    have hrow1 := finalize_ok_row _ _ _ _ hs1 hm1 hok1
    subst hrow1
    show sid1 = j1
    rw [schemaStep, pyOrInt] at hs1
    simp [hj1] at hs1
    omega

/-- Claim C10 (witness): against two active schemas (id 1 at 10%, id 2 at
50%), a request naming schema 2 stores `markup_schema_id = 2` yet resolves its
percent through the active-schema lookup (schema 1). -/
theorem C10_witness :
    ∃ row1, (finalize_quote exDb10 2026 10
        { exPayload10 with markup_schema_id := some 2 }).result = .ok row1 ∧
      row1.markup_schema_id = 2 ∧
      row1.snapshot.calcRec.markup_pct =
        determine_markup_pct exDb10 (pyOrStr exPayload10.category "im")
          (pyOrQty (some row1.snapshot.calcRec.computed_qty) exPayload10.qty) := by
  obtain ⟨row1, hok1⟩ : ∃ r, (finalize_quote exDb10 2026 10
      { exPayload10 with markup_schema_id := some 2 }).result = .ok r := ⟨_, rfl⟩
  obtain ⟨row2, hok2⟩ : ∃ r, (finalize_quote exDb10 2026 10
      { exPayload10 with markup_schema_id := some 1 }).result = .ok r := ⟨_, rfl⟩
  have h := C10_schema_id_ignored exDb10 2026 10 exPayload10 2 1 rfl
  exact ⟨row1, hok1, h.2.1 (by decide) row1 hok1, (h.1 row1 row2 hok1 hok2).2.2⟩

end QuotationDashboard
